import Mathlib

/-!
Verification development for the filter design and frequency-response
evaluation engine in `src/camilladsp/filter_eval.py`.

The Python code is shallowly embedded: byte-level decoding is modelled over
`List ℤ` (NumPy uint8 reads, slicing and 1-D broadcasting made explicit),
scaled samples over `ℚ`, and the analytic filter-design formulas over `ℝ`/`ℂ`.
-/

namespace PyCamillaDSP

/-! ## SampleDecoder: `Conv._repack_24bit` and the `S24LE3` branch of
`Conv._read_binary_coeffs` -/

/-- Reinterpretation of the low 8 bits of a byte value as a signed 8-bit
integer, as done by `values[0::3].astype(np.int8)`. -/
def toInt8 (b : ℤ) : ℤ :=
  if b % 256 < 128 then b % 256 else b % 256 - 256

/-- NumPy basic slice `l[start::3]` on a one-dimensional array: the elements at
indices `start, start + 3, start + 6, ...`. -/
def stride3 (l : List ℤ) (start : ℕ) : List ℤ :=
  (List.range ((l.length - start + 2) / 3)).map fun k => l.getD (start + 3 * k) 0

/-- NumPy elementwise addition of two one-dimensional arrays with
broadcasting: the shapes must be equal, or one of them must have length 1 (in
which case its single element is added to every element of the other); any
other combination raises a broadcast error. -/
def npAdd (xs ys : List ℤ) : Except String (List ℤ) :=
  if xs.length = ys.length then .ok (List.zipWith (· + ·) xs ys)
  else if ys.length = 1 then .ok (xs.map (· + ys.headI))
  else if xs.length = 1 then .ok (ys.map (xs.headI + ·))
  else .error "operands could not be broadcast together"

/-- Embedding of `Conv._repack_24bit`:
`values[0::3].astype(np.int8) * 2**16 + values[1::3] * 2**8 + values[2::3]`,
with NumPy left-associated broadcasting additions made explicit.  NumPy 1.x
value-based integer promotion keeps every intermediate exactly representable
in `int32`, so unbounded integer arithmetic is faithful. -/
def repack_24bit (values : List ℤ) : Except String (List ℤ) :=
  match npAdd ((stride3 values 0).map fun b => toInt8 b * 2 ^ 16)
      ((stride3 values 1).map fun b => b * 2 ^ 8) with
  | .error e => .error e
  | .ok hi => npAdd hi (stride3 values 2)

/-- Embedding of the `S24LE3` branch of `Conv._read_binary_coeffs`: repack the
raw bytes, then divide by the scale factor `SCALEFACTOR["S24LE3"] = 2**23`. -/
def read_binary_s24le3 (bytes : List ℤ) : Except String (List ℚ) :=
  match repack_24bit bytes with
  | .error e => .error e
  | .ok vs => .ok (vs.map fun v : ℤ => (v : ℚ) / 2 ^ 23)

/-- Success test for an `Except` result (the read raised no error). -/
def exceptOk {α β : Type} : Except α β → Bool
  | .ok _ => true
  | .error _ => false

/-! ## Shared stability contract -/

/-- Three-state stability result: Python `True` / `False` / `None`. -/
inductive Stability
  | stable
  | unstable
  | unknown
  deriving DecidableEq

/-! ## BiquadDesigner: `Biquad` -/

/-- Normalized biquad coefficients together with the sample rate, as stored by
the tail of `Biquad.__init__`. -/
structure Biquad where
  fs : ℝ
  a1 : ℝ
  a2 : ℝ
  b0 : ℝ
  b1 : ℝ
  b2 : ℝ

/-- Final normalization step of `Biquad.__init__`: divide the five remaining
coefficients by `a0`. -/
noncomputable def Biquad.normalize (fs a0 a1 a2 b0 b1 b2 : ℝ) : Biquad :=
  ⟨fs, a1 / a0, a2 / a0, b0 / a0, b1 / a0, b2 / a0⟩

/-- Embedding of the `Free` branch of `Biquad.__init__`.  The source sets
`a0 = 1.0`, `a1 = conf["a1"]`, `a2 = conf["a1"]` (sic: the `a2` line reads the
`a1` key), and takes `b0`, `b1`, `b2` from the configuration. -/
noncomputable def Biquad.free (fs a1 a2 b0 b1 b2 : ℝ) : Biquad :=
  Biquad.normalize fs 1 a1 a1 b0 b1 b2

/-- Embedding of `Biquad.is_stable`:
`abs(self.a2) < 1.0 and abs(self.a1) < (self.a2 + 1.0)`, returned as a Python
boolean (never `None`). -/
noncomputable def Biquad.is_stable (bq : Biquad) : Stability :=
  if |bq.a2| < 1 ∧ |bq.a1| < bq.a2 + 1 then .stable else .unstable

/-! ## CascadeDesigner: `BiquadCombo` -/

/-- Embedding of `BiquadCombo.Butterw_q`: the per-stage Q values
`1 / (2 sin(π/order (n + 1/2)))` for `n = 0 .. floor(order/2) - 1`, with a
sentinel `-1.0` appended when the order is odd. -/
noncomputable def Butterw_q (order : ℕ) : List ℝ :=
  ((List.range (order / 2)).map fun n : ℕ =>
    1 / (2 * Real.sin ((Real.pi / order) * ((n : ℝ) + 1 / 2))))
  ++ (if order % 2 > 0 then [-1] else [])

/-- Embedding of the Linkwitz-Riley branches of `BiquadCombo.__init__`: for an
even order, take the Butterworth Q list of the half order; if the half order
is odd, drop its sentinel and append a fixed `0.5` stage, otherwise just
concatenate the list with itself.  (The Python source divides the order by
`2` with float division; for the even orders the type admits this agrees with
natural division.) -/
noncomputable def linkwitz_riley_q (order : ℕ) : List ℝ :=
  let q_temp := Butterw_q (order / 2)
  if (order / 2) % 2 > 0 then q_temp.dropLast ++ q_temp.dropLast ++ [0.5]
  else q_temp ++ q_temp

/-- Stage configuration built by the loop at the end of
`BiquadCombo.__init__`: a second-order section configuration for `q >= 0`,
the first-order variant otherwise. -/
inductive StageConf
  | secondOrder (freq q : ℝ)
  | firstOrder (freq : ℝ)

/-- Selection `if q >= 0: ... type_so ... else: ... type_fo ...` from
`BiquadCombo.__init__`. -/
noncomputable def stageConf (freq : ℝ) (q : ℝ) : StageConf :=
  if 0 ≤ q then .secondOrder freq q else .firstOrder freq

/-- Stage configurations built by `BiquadCombo.__init__` from a Q list. -/
noncomputable def comboStages (freq : ℝ) (qvalues : List ℝ) : List StageConf :=
  qvalues.map (stageConf freq)

/-! ## DifferenceEquationEvaluator: `DiffEq` -/

/-- Coefficient vectors and sample rate stored by `DiffEq.__init__`. -/
structure DiffEq where
  fs : ℝ
  a : List ℝ
  b : List ℝ

/-- Embedding of `DiffEq.__init__`: store the configured vectors, replacing an
empty vector by `[1.0]`. -/
def DiffEq.init (conf_a conf_b : List ℝ) (fs : ℝ) : DiffEq :=
  ⟨fs,
   if conf_a.length = 0 then [1] else conf_a,
   if conf_b.length = 0 then [1] else conf_b⟩

/-- Embedding of `DiffEq.complex_gain` at one frequency:
`z = exp(1j 2π f / fs)`, `A = (Σ bₙ z⁻ⁿ) / (Σ aₙ z⁻ⁿ)` (the Python loops
accumulate exactly these sums). -/
noncomputable def DiffEq.complex_gain (d : DiffEq) (f : ℝ) : ℂ :=
  let z : ℂ := Complex.exp (Complex.I * (2 * Real.pi * f / d.fs))
  (∑ n in Finset.range d.b.length, (d.b.getD n 0 : ℂ) * z ^ (-(n : ℤ))) /
  (∑ n in Finset.range d.a.length, (d.a.getD n 0 : ℂ) * z ^ (-(n : ℤ)))

/-- Embedding of `DiffEq.gain_and_phase` at one frequency:
`20 log10 |A|` and `180/π arg A`. -/
noncomputable def DiffEq.gain_and_phase (d : DiffEq) (f : ℝ) : ℝ × ℝ :=
  (20 * Real.logb 10 (Complex.abs (d.complex_gain f)),
   180 / Real.pi * Complex.arg (d.complex_gain f))

/-- Embedding of `DiffEq.is_stable`: the source returns `None` (TODO). -/
def DiffEq.is_stable (_ : DiffEq) : Stability := .unknown

/-! ## GainStage: `Gain` -/

/-- Configuration stored by `Gain.__init__`. -/
structure Gain where
  gain : ℝ
  inverted : Bool

/-- Embedding of `Gain.complex_gain`: a constant (real-valued) array
`ones * 10**(gain/20) * sign` with `sign = -1.0` when inverted. -/
noncomputable def Gain.complex_gain (g : Gain) (f : List ℝ) : List ℝ :=
  f.map fun _ => (10 : ℝ) ^ (g.gain / 20) * (if g.inverted then -1 else 1)

/-- Embedding of `Gain.gain_and_phase`: the gain array is `ones * gain`, and
the phase array is `ones * phaseval` with `phaseval = 180 / np.pi` when
inverted and `0` otherwise (sic: the source uses the conversion factor
`180/π` itself as the phase value). -/
noncomputable def Gain.gain_and_phase (g : Gain) (f : List ℝ) : List ℝ × List ℝ :=
  (f.map fun _ => g.gain,
   f.map fun _ => if g.inverted then 180 / Real.pi else 0)

/-- Embedding of `Gain.is_stable`: the source returns `True`. -/
def Gain.is_stable (_ : Gain) : Stability := .stable

/-! ## ConvolutionFilter: `Conv` -/

/-- Impulse response and sample rate stored by `Conv.__init__`. -/
structure Conv where
  impulse : List ℝ
  fs : ℝ

/-- Configuration mapping for `Conv.__init__`: the two keys the constructor
reads. -/
structure ConvConf where
  filename : Option String
  values : Option (List ℝ)

/-- Python truthiness of the optional parameter mapping: `None` and the empty
dict are falsy. -/
def confTruthy : Option ConvConf → Bool
  | none => false
  | some d => d.filename.isSome || d.values.isSome

/-- Embedding of `Conv.__init__`: a falsy `conf` is replaced by
`{"values": [1.0]}`; a configuration with a `filename` key is read through
`_read_coeffs` (abstracted as `readCoeffs`), otherwise the inline `values`
are stored. -/
def Conv.init (conf : Option ConvConf) (readCoeffs : String → List ℝ) (fs : ℝ) :
    Conv :=
  let c : ConvConf :=
    if confTruthy conf then conf.getD ⟨none, none⟩ else ⟨none, some [1]⟩
  match c.filename with
  | some fname => ⟨readCoeffs fname, fs⟩
  | none => ⟨c.values.getD [], fs⟩

/-- Padded transform half-length chosen by `Conv.complex_gain`:
`npoints = max(len(impulse), 1024)`. -/
def Conv.npoints (c : Conv) : ℕ :=
  if c.impulse.length < 1024 then 1024 else c.impulse.length

/-- Zero-padded impulse built by `Conv.complex_gain`: an array of
`npoints * 2` zeros whose first `len(impulse)` entries are the impulse. -/
noncomputable def Conv.padded_impulse (c : Conv) : List ℂ :=
  c.impulse.map Complex.ofReal ++
    List.replicate (2 * c.npoints - c.impulse.length) 0

/-- Discrete Fourier transform, as computed by `np.fft.fft`:
`X_k = Σₙ x_n exp(-2πi k n / N)`. -/
noncomputable def dft (xs : List ℂ) : List ℂ :=
  (List.range xs.length).map fun k : ℕ =>
    ∑ n in Finset.range xs.length,
      xs.getD n 0 * Complex.exp (-2 * Real.pi * Complex.I * ((k : ℂ) * n) / xs.length)

/-- Embedding of `np.linspace a b n` (with the default inclusive endpoint):
the points `a + (b - a) * k / (n - 1)` for `k = 0 .. n - 1`. -/
noncomputable def linspace (a b : ℝ) (n : ℕ) : List ℝ :=
  (List.range n).map fun k : ℕ => a + (b - a) * (k : ℝ) / ((n - 1 : ℕ) : ℝ)

/-- Interpolation abscissae built by the line
`f_fft = np.linspace(0, self.fs / 2.0, npoints)` in `Conv.complex_gain`. -/
noncomputable def Conv.f_fft (c : Conv) : List ℝ :=
  linspace 0 (c.fs / 2) c.npoints

/-- Embedding of `np.interp` on a table of (abscissa, ordinate) pairs with
increasing abscissae: clamp outside the table, piecewise-linear inside (NumPy
interpolates complex ordinates componentwise, which coincides with complex
linear interpolation). -/
noncomputable def npInterp (x : ℝ) : List (ℝ × ℂ) → ℂ
  | [] => 0
  | [(_, y0)] => y0
  | (x0, y0) :: (x1, y1) :: rest =>
      if x ≤ x0 then y0
      else if x ≤ x1 then y0 + (y1 - y0) * (((x - x0) / (x1 - x0) : ℝ) : ℂ)
      else npInterp x ((x1, y1) :: rest)

/-- Embedding of `Conv.complex_gain`: interpolate the first `npoints` entries
of the padded-impulse DFT onto the caller grid, using `f_fft` as abscissae. -/
noncomputable def Conv.complex_gain (c : Conv) (f : List ℝ) : List ℂ :=
  let cut := (dft c.padded_impulse).take c.npoints
  f.map fun x => npInterp x (c.f_fft.zip cut)

/-- Native uniform DFT bin frequencies `k fs / N_fft` for
`k = 0 .. N_fft/2 - 1`.  Modelled from the spec: this is the grid the spec
says the interpolation abscissae are, written for comparison with the
source-derived `Conv.f_fft`. -/
noncomputable def nativeBinFreqs (fs : ℝ) (nfft : ℕ) : List ℝ :=
  (List.range (nfft / 2)).map fun k : ℕ => (k : ℝ) * fs / nfft

/-! ## Helper lemmas -/

/-- Zipping two maps over the same list is a map of the combined function. -/
lemma zipWith_map_same {α β γ δ : Type} (f : β → γ → δ) (g : α → β) (h : α → γ) :
    ∀ l : List α, List.zipWith f (l.map g) (l.map h) = l.map fun x => f (g x) (h x)
  | [] => rfl
  | x :: xs => by simp [zipWith_map_same f g h xs]

/-- Broadcast addition succeeds exactly when the shapes are compatible. -/
lemma npAdd_eq_ok_iff (xs ys : List ℤ) :
    exceptOk (npAdd xs ys) = true ↔
      (xs.length = ys.length ∨ ys.length = 1 ∨ xs.length = 1) := by
  unfold npAdd
  split_ifs <;> simp_all [exceptOk]

/-- Length of a successful broadcast addition. -/
lemma npAdd_ok_length (xs ys zs : List ℤ) (h : npAdd xs ys = .ok zs) :
    zs.length =
      if xs.length = ys.length then xs.length
      else if ys.length = 1 then xs.length else ys.length := by
  unfold npAdd at h
  split_ifs at h with h1 h2 h3 <;> injection h with h' <;> subst h' <;>
    split_ifs <;> simp_all

/-- Unfolding step for `repack_24bit` once the first addition succeeded. -/
lemma repack_24bit_of_ok (values hi : List ℤ)
    (h : npAdd ((stride3 values 0).map fun b => toInt8 b * 2 ^ 16)
      ((stride3 values 1).map fun b => b * 2 ^ 8) = .ok hi) :
    repack_24bit values = npAdd hi (stride3 values 2) := by
  unfold repack_24bit
  rw [h]

/-- Unfolding step for `read_binary_s24le3` once repacking succeeded. -/
lemma read_binary_s24le3_of_ok (bytes vs : List ℤ) (h : repack_24bit bytes = .ok vs) :
    read_binary_s24le3 bytes = .ok (vs.map fun v : ℤ => (v : ℚ) / 2 ^ 23) := by
  unfold read_binary_s24le3
  rw [h]

/-- Length of a NumPy stride-3 slice. -/
lemma stride3_length (l : List ℤ) (s : ℕ) :
    (stride3 l s).length = (l.length - s + 2) / 3 := by
  simp [stride3]

/-- Explicit form of the stride-3 slices of a list of `3 * m` bytes. -/
lemma stride3_eq_map (bs : List ℤ) (m : ℕ) (h : bs.length = 3 * m) (s : ℕ) (hs : s < 3) :
    stride3 bs s = (List.range m).map fun k => bs.getD (3 * k + s) 0 := by
  have hc : (bs.length - s + 2) / 3 = m := by omega
  unfold stride3
  rw [hc]
  exact List.map_congr_left fun k _ => by rw [Nat.add_comm s (3 * k)]

/-- Butterworth Q list of an even order carries no sentinel. -/
lemma butterw_q_even (M : ℕ) (h : M % 2 = 0) :
    Butterw_q M = (List.range (M / 2)).map fun n : ℕ =>
      1 / (2 * Real.sin ((Real.pi / M) * ((n : ℝ) + 1 / 2))) := by
  unfold Butterw_q
  rw [if_neg (by omega)]
  exact List.append_nil _

/-- Butterworth Q list of an odd order ends in the sentinel `-1`. -/
lemma butterw_q_odd (M : ℕ) (h : M % 2 = 1) :
    Butterw_q M = ((List.range (M / 2)).map fun n : ℕ =>
      1 / (2 * Real.sin ((Real.pi / M) * ((n : ℝ) + 1 / 2)))) ++ [-1] := by
  unfold Butterw_q
  rw [if_pos (by omega)]

/-- Positivity of every analytic Butterworth Q value. -/
lemma butterw_entry_pos (N n : ℕ) (hN : 0 < N) (hn : n < N / 2) :
    0 < 1 / (2 * Real.sin (Real.pi / N * ((n : ℝ) + 1 / 2))) := by
  have hπ := Real.pi_pos
  have hNR : (0 : ℝ) < N := by exact_mod_cast hN
  have hlow : (0 : ℝ) < Real.pi / N * ((n : ℝ) + 1 / 2) := by positivity
  have hbound : 2 * n + 2 ≤ N := by omega
  have hboundR : (n : ℝ) + 1 / 2 < N := by
    have h2 : ((2 * n + 2 : ℕ) : ℝ) ≤ N := by exact_mod_cast hbound
    push_cast at h2
    linarith
  have hhigh : Real.pi / N * ((n : ℝ) + 1 / 2) < Real.pi := by
    rw [div_mul_eq_mul_div, div_lt_iff₀ hNR]
    have := mul_lt_mul_of_pos_left hboundR hπ
    linarith
  have hsin := Real.sin_pos_of_pos_of_lt_pi hlow hhigh
  positivity

/-- Element formula for `linspace`. -/
lemma linspace_getD (a b : ℝ) (n k : ℕ) (hk : k < n) :
    (linspace a b n).getD k 0 = a + (b - a) * (k : ℝ) / ((n - 1 : ℕ) : ℝ) := by
  unfold linspace
  rw [List.getD_eq_getElem?_getD, List.getElem?_map, List.getElem?_range hk]
  rfl

/-- Element formula for the native DFT bin frequencies. -/
lemma nativeBinFreqs_getD (fs : ℝ) (nfft k : ℕ) (hk : k < nfft / 2) :
    (nativeBinFreqs fs nfft).getD k 0 = (k : ℝ) * fs / nfft := by
  unfold nativeBinFreqs
  rw [List.getD_eq_getElem?_getD, List.getElem?_map, List.getElem?_range hk]
  rfl

/-- Basic bounds on the padded transform half-length. -/
lemma conv_npoints_ge (c : Conv) : c.impulse.length ≤ c.npoints ∧ 1024 ≤ c.npoints := by
  unfold Conv.npoints
  split_ifs with h <;> omega

/-! ## Claim theorems -/

/-- C1 (counterexample): the S24LE3 decoder does not read triples as
(lsb, mid, msb).  The byte triple `(0x01, 0x00, 0x00)` decodes to `1/128`
(the first byte is used as the signed most-significant byte), not to the
claimed `1/2^23`, and `(0x00, 0x00, 0xFF)` decodes to `255/2^23`, not to the
claimed `-1/128`. -/
theorem s24le3_byte_order_counterexample :
    read_binary_s24le3 [1, 0, 0] = .ok [1 / 128]
  ∧ read_binary_s24le3 [1, 0, 0] ≠ .ok [1 / 2 ^ 23]
  ∧ read_binary_s24le3 [0, 0, 255] = .ok [255 / 2 ^ 23]
  ∧ read_binary_s24le3 [0, 0, 255] ≠ .ok [-(1 / 128)] := by
  have e1 : repack_24bit [1, 0, 0] = .ok [65536] := by rfl
  have e2 : repack_24bit [0, 0, 255] = .ok [255] := by rfl
  have r1 : read_binary_s24le3 [1, 0, 0] = .ok [(1 : ℚ) / 128] := by
    rw [read_binary_s24le3_of_ok _ _ e1]
    norm_num
  have r2 : read_binary_s24le3 [0, 0, 255] = .ok [(255 : ℚ) / 2 ^ 23] := by
    rw [read_binary_s24le3_of_ok _ _ e2]
    norm_num
  refine ⟨r1, ?_, r2, ?_⟩
  · rw [r1]
    intro hc
    have h2 : (1 : ℚ) / 128 = 1 / 2 ^ 23 := by
      have := Except.ok.inj hc
      simpa using this
    norm_num at h2
  · rw [r2]
    intro hc
    have h2 : (255 : ℚ) / 2 ^ 23 = -(1 / 128) := by
      have := Except.ok.inj hc
      simpa using this
    norm_num at h2

/-- C1 (amended): for every byte sequence whose length is an exact multiple
of 3, S24LE3 decoding groups the bytes into consecutive non-overlapping
triples and reconstructs sample `k` as
`first_signed * 2^16 + second * 2^8 + third`, where `first_signed` is the
FIRST byte of the triple reinterpreted as a signed 8-bit value, divided by
`2^23`. -/
theorem repack_s24le3_ok (bs : List ℤ) (m : ℕ) (h : bs.length = 3 * m) :
    read_binary_s24le3 bs = .ok ((List.range m).map fun k =>
      ((toInt8 (bs.getD (3 * k) 0) * 2 ^ 16 + bs.getD (3 * k + 1) 0 * 2 ^ 8
        + bs.getD (3 * k + 2) 0 : ℤ) : ℚ) / 2 ^ 23) := by
  have h0 := stride3_eq_map bs m h 0 (by norm_num)
  have h1 := stride3_eq_map bs m h 1 (by norm_num)
  have h2 := stride3_eq_map bs m h 2 (by norm_num)
  have hrepack : repack_24bit bs = .ok ((List.range m).map fun k =>
      toInt8 (bs.getD (3 * k) 0) * 2 ^ 16 + bs.getD (3 * k + 1) 0 * 2 ^ 8
        + bs.getD (3 * k + 2) 0) := by
    have hAB : npAdd ((stride3 bs 0).map fun b => toInt8 b * 2 ^ 16)
        ((stride3 bs 1).map fun b => b * 2 ^ 8)
      = .ok ((List.range m).map fun k =>
          toInt8 (bs.getD (3 * k + 0) 0) * 2 ^ 16 + bs.getD (3 * k + 1) 0 * 2 ^ 8) := by
      rw [h0, h1, List.map_map, List.map_map]
      unfold npAdd
      rw [if_pos (by simp)]
      rw [zipWith_map_same]
      rfl
    rw [repack_24bit_of_ok _ _ hAB, h2]
    unfold npAdd
    rw [if_pos (by simp)]
    rw [zipWith_map_same (· + ·)
      (fun k => toInt8 (bs.getD (3 * k + 0) 0) * 2 ^ 16 + bs.getD (3 * k + 1) 0 * 2 ^ 8)
      (fun k => bs.getD (3 * k + 2) 0)]
    simp
  rw [read_binary_s24le3_of_ok _ _ hrepack, List.map_map]
  rfl

/-- C1 (witness): the amended triple formula evaluated on the concrete read
of the bytes `(0x01, 0x00, 0x00)`. -/
theorem repack_s24le3_ok_witness :
    read_binary_s24le3 [1, 0, 0] = .ok ((List.range 1).map fun k =>
      ((toInt8 ([(1 : ℤ), 0, 0].getD (3 * k) 0) * 2 ^ 16
        + [(1 : ℤ), 0, 0].getD (3 * k + 1) 0 * 2 ^ 8
        + [(1 : ℤ), 0, 0].getD (3 * k + 2) 0 : ℤ) : ℚ) / 2 ^ 23) :=
  repack_s24le3_ok [1, 0, 0] 1 (by decide)

/-- C2 (counterexample): the Linkwitz-Riley order-4 Q list has length 2,
not the claimed 4. -/
theorem linkwitz_riley_order4_counterexample :
    (linkwitz_riley_q 4).length = 2 ∧ (linkwitz_riley_q 4).length ≠ 4 := by
  have h4 : linkwitz_riley_q 4 = Butterw_q 2 ++ Butterw_q 2 := by
    unfold linkwitz_riley_q
    norm_num
  have hlen : (Butterw_q 2).length = 1 := by
    unfold Butterw_q
    norm_num
  rw [h4, List.length_append, hlen]
  norm_num

/-- C2 (amended): for a Linkwitz-Riley design of order `2 M`, the per-stage
Q list equals the Butterworth(M) Q list (with its sentinel removed when `M`
is odd) concatenated with itself, plus one extra `0.5` entry exactly when
`M` is odd; for order 4 (`M = 2`, even) the Q list has length 2 (the
Butterworth(2) list of length 1, doubled) and contains no `0.5` stage. -/
theorem linkwitz_riley_q_spec :
    (∀ M : ℕ, M % 2 = 0 → linkwitz_riley_q (2 * M) = Butterw_q M ++ Butterw_q M)
  ∧ (∀ M : ℕ, M % 2 = 1 →
      linkwitz_riley_q (2 * M) =
        (Butterw_q M).dropLast ++ (Butterw_q M).dropLast ++ [0.5]
      ∧ (Butterw_q M).dropLast ++ [-1] = Butterw_q M)
  ∧ (linkwitz_riley_q 4).length = 2
  ∧ (Butterw_q 2).length = 1
  ∧ linkwitz_riley_q 4 = Butterw_q 2 ++ Butterw_q 2
  ∧ (0.5 : ℝ) ∉ linkwitz_riley_q 4 := by
  have hdiv : ∀ M : ℕ, 2 * M / 2 = M := fun M => Nat.mul_div_cancel_left M (by norm_num)
  have heven : ∀ M : ℕ, M % 2 = 0 → linkwitz_riley_q (2 * M) = Butterw_q M ++ Butterw_q M := by
    intro M h
    unfold linkwitz_riley_q
    rw [hdiv M, if_neg (by omega)]
  have hlr4 : linkwitz_riley_q 4 = Butterw_q 2 ++ Butterw_q 2 := by
    have := heven 2 (by norm_num)
    simpa using this
  have hb2 : Butterw_q 2 = [1 / (2 * Real.sin ((Real.pi / (2:ℕ)) * (((0:ℕ) : ℝ) + 1 / 2)))] := by
    rw [butterw_q_even 2 (by norm_num)]
    rw [show (2 : ℕ) / 2 = 1 from rfl, show List.range 1 = [0] from rfl]
    rfl
  refine ⟨heven, ?_, ?_, ?_, hlr4, ?_⟩
  · intro M h
    constructor
    · unfold linkwitz_riley_q
      rw [hdiv M, if_pos (by omega)]
    · rw [butterw_q_odd M h, List.dropLast_concat]
  · rw [hlr4, hb2]
    rfl
  · rw [hb2]
    rfl
  · rw [hlr4, hb2]
    have harg : (Real.pi / ((2:ℕ) : ℝ)) * (((0:ℕ) : ℝ) + 1 / 2) = Real.pi / 4 := by
      push_cast
      ring
    rw [harg, Real.sin_pi_div_four]
    have hs2 : Real.sqrt 2 < 2 := by
      nlinarith [Real.sq_sqrt (by norm_num : (2:ℝ) ≥ 0), Real.sqrt_nonneg 2]
    have hs2pos : 0 < Real.sqrt 2 := Real.sqrt_pos.mpr (by norm_num)
    have hval : 1 / (2 * (Real.sqrt 2 / 2)) = 1 / Real.sqrt 2 := by
      rw [mul_div_cancel₀]
      norm_num
    intro hmem
    simp only [List.cons_append, List.nil_append, List.mem_cons, List.not_mem_nil,
      or_false] at hmem
    rcases hmem with h | h <;>
    · rw [hval] at h
      rw [show (0.5 : ℝ) = 1 / 2 by norm_num] at h
      rw [div_eq_div_iff (by norm_num) hs2pos.ne'] at h
      nlinarith

/-- C2 (witness): the amended statement applied at the concrete even half
order `M = 2` (order 4) and odd half order `M = 1` (order 2). -/
theorem linkwitz_riley_q_spec_witness :
    linkwitz_riley_q 4 = Butterw_q 2 ++ Butterw_q 2
  ∧ linkwitz_riley_q 2 =
      (Butterw_q 1).dropLast ++ (Butterw_q 1).dropLast ++ [0.5] := by
  obtain ⟨he, ho, -, -, -, -⟩ := linkwitz_riley_q_spec
  exact ⟨by simpa using he 2 (by norm_num), by simpa using (ho 1 (by norm_num)).1⟩

/-- C3 (code bug): the `Free` branch of `Biquad.__init__` stores
`a2 = conf["a1"]` instead of `conf["a2"]`.  For the supplied parameters
`a1 = 0`, `a2 = 1.5` the stored `a2` is `0`, and `is_stable()` returns true,
while the claim (and the spec table) require the supplied `a2 = 1.5` to be
stored, which would make `is_stable()` false. -/
theorem free_biquad_a2_bug :
    (Biquad.free 44100 0 1.5 0 0 0).a2 = 0
  ∧ (Biquad.free 44100 0 1.5 0 0 0).is_stable = Stability.stable
  ∧ (Biquad.normalize 44100 1 0 1.5 0 0 0).is_stable = Stability.unstable := by
  refine ⟨?_, ?_, ?_⟩
  · simp [Biquad.free, Biquad.normalize]
  · simp [Biquad.free, Biquad.normalize, Biquad.is_stable]
  · rw [Biquad.normalize, Biquad.is_stable]
    rw [if_neg]
    push_neg
    intro h
    exfalso
    rw [show (1.5 : ℝ) / 1 = 1.5 by norm_num,
      show |(1.5 : ℝ)| = 1.5 by rw [abs_of_pos] <;> norm_num] at h
    linarith

/-- C4 (code bug): for the filter `Gain{gain_db = -6, inverted = true}`,
`gain_and_phase` returns the constant gain `-6` but the constant phase
`180 / π ≈ 57.2958` degrees, not the claimed `180`; the code's own
`complex_gain` yields a negative real value whose angle in degrees is `180`,
so the shortcut contradicts the shared contract. -/
theorem gain_gain_and_phase_bug (fr : List ℝ) :
    (Gain.gain_and_phase ⟨-6, true⟩ fr).1 = fr.map (fun _ => (-6 : ℝ))
  ∧ (Gain.gain_and_phase ⟨-6, true⟩ fr).2 = fr.map (fun _ => (180 / Real.pi : ℝ))
  ∧ (180 / Real.pi : ℝ) ≠ 180
  ∧ Gain.complex_gain ⟨-6, true⟩ fr = fr.map (fun _ => (10 : ℝ) ^ ((-6 : ℝ) / 20) * -1)
  ∧ 180 / Real.pi * Complex.arg (((10 : ℝ) ^ ((-6 : ℝ) / 20) * -1 : ℝ) : ℂ) = 180 := by
  refine ⟨rfl, rfl, ?_, ?_, ?_⟩
  · intro h
    rw [div_eq_iff Real.pi_ne_zero] at h
    have h3 := Real.pi_gt_three
    nlinarith
  · simp [Gain.complex_gain]
  · have hx : ((10 : ℝ) ^ ((-6 : ℝ) / 20) * -1) < 0 := by
      have := Real.rpow_pos_of_pos (by norm_num : (0:ℝ) < 10) ((-6 : ℝ) / 20)
      nlinarith
    rw [Complex.arg_ofReal_of_neg hx]
    exact div_mul_cancel₀ 180 Real.pi_ne_zero

/-- C4 (witness): the buggy phase value on the concrete one-point grid
`[1000]`. -/
theorem gain_gain_and_phase_bug_witness :
    (Gain.gain_and_phase ⟨-6, true⟩ [1000]).2 = [(180 / Real.pi : ℝ)]
  ∧ (180 / Real.pi : ℝ) ≠ 180 := by
  obtain ⟨-, h2, h3, -, -⟩ := gain_gain_and_phase_bug [1000]
  exact ⟨by simpa using h2, h3⟩

/-- C5 (counterexample): the interpolation abscissae of `Conv.complex_gain`
are not the native DFT bin frequencies.  For the identity impulse at
`fs = 44100` (so `npoints = 1024`, `N_fft = 2048`), the second abscissa is
`22050/1023` while the second native bin frequency is `44100/2048`, and the
two grids are different lists. -/
theorem conv_f_fft_counterexample :
    (Conv.f_fft ⟨[1], 44100⟩).getD 1 0 = 22050 / 1023
  ∧ (nativeBinFreqs 44100 (2 * Conv.npoints ⟨[1], 44100⟩)).getD 1 0 = 44100 / 2048
  ∧ Conv.f_fft ⟨[1], 44100⟩ ≠ nativeBinFreqs 44100 (2 * Conv.npoints ⟨[1], 44100⟩) := by
  have hnp : Conv.npoints ⟨[1], 44100⟩ = 1024 := rfl
  have h1 : (Conv.f_fft ⟨[1], 44100⟩).getD 1 0 = 22050 / 1023 := by
    unfold Conv.f_fft
    rw [hnp, linspace_getD 0 ((44100 : ℝ) / 2) 1024 1 (by norm_num)]
    norm_num
  have h2 : (nativeBinFreqs 44100 (2 * Conv.npoints ⟨[1], 44100⟩)).getD 1 0 = 44100 / 2048 := by
    rw [hnp, nativeBinFreqs_getD 44100 (2 * 1024) 1 (by norm_num)]
    norm_num
  refine ⟨h1, h2, ?_⟩
  intro he
  have hcontra : (22050 : ℝ) / 1023 = 44100 / 2048 := by
    rw [← h1, he, h2]
  norm_num at hcontra

/-- C5 (amended): `Conv.complex_gain` zero-pads the impulse to
`2 * npoints` points with `npoints = max(len(impulse), 1024)`, keeps the
first `npoints` DFT values, and linearly interpolates them onto the caller
grid using as abscissae the `npoints` evenly spaced frequencies from `0` to
`fs/2` inclusive, i.e. `k * (fs/2) / (npoints - 1)` for
`k = 0 .. npoints - 1` (an endpoint-inclusive grid that differs from the
transform's native bin frequencies `k * fs / N_fft`). -/
theorem conv_complex_gain_spec (c : Conv) (f : List ℝ) :
    Conv.complex_gain c f =
      f.map (fun x => npInterp x (c.f_fft.zip ((dft c.padded_impulse).take c.npoints)))
  ∧ c.padded_impulse.length = 2 * c.npoints
  ∧ (∀ k, k < c.impulse.length →
      c.padded_impulse.getD k 0 = ((c.impulse.getD k 0 : ℝ) : ℂ))
  ∧ (∀ k, c.impulse.length ≤ k → k < 2 * c.npoints → c.padded_impulse.getD k 0 = 0)
  ∧ (∀ k, k < c.npoints →
      c.f_fft.getD k 0 = (k : ℝ) * (c.fs / 2) / ((c.npoints - 1 : ℕ) : ℝ))
  ∧ c.impulse.length ≤ c.npoints ∧ 1024 ≤ c.npoints := by
  obtain ⟨hle, h1024⟩ := conv_npoints_ge c
  refine ⟨rfl, ?_, ?_, ?_, ?_, hle, h1024⟩
  · unfold Conv.padded_impulse
    rw [List.length_append, List.length_map, List.length_replicate]
    omega
  · intro k hk
    unfold Conv.padded_impulse
    rw [List.getD_eq_getElem?_getD, List.getElem?_append_left (by simpa using hk),
      ← List.getD_eq_getElem?_getD]
    have := List.getD_map c.impulse 0 Complex.ofReal (n := k)
    simpa using this
  · intro k hk1 hk2
    unfold Conv.padded_impulse
    rw [List.getD_eq_getElem?_getD, List.getElem?_append_right (by simpa using hk1)]
    rw [List.getElem?_replicate]
    rw [if_pos (by simp; omega)]
    rfl
  · intro k hk
    unfold Conv.f_fft
    rw [linspace_getD 0 (c.fs / 2) c.npoints k hk]
    ring

/-- C5 (witness): the amended padding and abscissa facts applied to the
concrete identity-impulse filter at `fs = 44100` and grid index 1. -/
theorem conv_complex_gain_spec_witness :
    (Conv.padded_impulse ⟨[1], 44100⟩).length = 2 * Conv.npoints ⟨[1], 44100⟩
  ∧ (Conv.f_fft ⟨[1], 44100⟩).getD 1 0 =
      ((1 : ℕ) : ℝ) * ((44100 : ℝ) / 2) / ((Conv.npoints ⟨[1], 44100⟩ - 1 : ℕ) : ℝ) := by
  obtain ⟨-, hlen, -, -, hf, -, -⟩ := conv_complex_gain_spec ⟨[1], 44100⟩ []
  refine ⟨hlen, ?_⟩
  have h1 : (1 : ℕ) < Conv.npoints ⟨[1], 44100⟩ := by
    rw [show Conv.npoints ⟨[1], 44100⟩ = 1024 from rfl]
    norm_num
  exact hf 1 h1

/-- C6 (counterexample): a 4-byte S24LE3 read (length not a multiple of 3)
raises no error at all: NumPy broadcasting silently produces two samples. -/
theorem s24le3_no_malformed_error_counterexample :
    read_binary_s24le3 [0, 0, 0, 1] = .ok [0, 1 / 128]
  ∧ (4 : ℕ) % 3 ≠ 0 := by
  have e : repack_24bit [0, 0, 0, 1] = .ok [0, 65536] := by rfl
  refine ⟨?_, by norm_num⟩
  rw [read_binary_s24le3_of_ok _ _ e]
  norm_num

/-- C6 (amended): the binary S24LE3 read never signals a dedicated
MalformedInput error.  Repacking succeeds exactly when the byte count is a
multiple of 3 or at most 5; for larger non-multiple-of-3 counts the slice
lengths are broadcast-incompatible and a generic broadcast error is raised
synchronously, while the small remainders (lengths 1, 2, 4, 5) are silently
absorbed by broadcasting. -/
theorem repack_24bit_ok_iff (bs : List ℤ) :
    exceptOk (repack_24bit bs) = true ↔ (bs.length % 3 = 0 ∨ bs.length ≤ 5) := by
  have lA : ((stride3 bs 0).map fun b => toInt8 b * 2 ^ 16).length = (bs.length + 2) / 3 := by
    simp [stride3]
  have lB : ((stride3 bs 1).map fun b => b * 2 ^ 8).length = (bs.length - 1 + 2) / 3 := by
    simp [stride3]
  have lC : (stride3 bs 2).length = (bs.length - 2 + 2) / 3 := stride3_length bs 2
  rw [repack_24bit]
  cases h1 : npAdd ((stride3 bs 0).map fun b => toInt8 b * 2 ^ 16)
      ((stride3 bs 1).map fun b => b * 2 ^ 8) with
  | error e =>
    have hno : ¬ (((stride3 bs 0).map fun b => toInt8 b * 2 ^ 16).length
        = ((stride3 bs 1).map fun b => b * 2 ^ 8).length
      ∨ ((stride3 bs 1).map fun b => b * 2 ^ 8).length = 1
      ∨ ((stride3 bs 0).map fun b => toInt8 b * 2 ^ 16).length = 1) := by
      intro hc
      have ht := (npAdd_eq_ok_iff _ _).mpr hc
      rw [h1] at ht
      simp [exceptOk] at ht
    rw [lA, lB] at hno
    push_neg at hno
    simp only [exceptOk]
    constructor
    · intro ht
      exact absurd ht (by simp)
    · intro hc
      exfalso
      obtain ⟨hne, hB1, hA1⟩ := hno
      omega
  | ok hi =>
    have hlen := npAdd_ok_length _ _ _ h1
    rw [lA, lB] at hlen
    have hok := npAdd_eq_ok_iff hi (stride3 bs 2)
    rw [lC] at hok
    rw [hok]
    have hcompat : ((stride3 bs 0).map fun b => toInt8 b * 2 ^ 16).length
        = ((stride3 bs 1).map fun b => b * 2 ^ 8).length
      ∨ ((stride3 bs 1).map fun b => b * 2 ^ 8).length = 1
      ∨ ((stride3 bs 0).map fun b => toInt8 b * 2 ^ 16).length = 1 := by
      have hc := npAdd_eq_ok_iff ((stride3 bs 0).map fun b => toInt8 b * 2 ^ 16)
        ((stride3 bs 1).map fun b => b * 2 ^ 8)
      rw [h1] at hc
      exact hc.mp (by simp [exceptOk])
    rw [lA, lB] at hcompat
    split_ifs at hlen with h2 h3 <;> omega

/-- C6 (witness): a 7-byte read is broadcast-incompatible, so the decode is
not a success (it raises the generic broadcast error). -/
theorem repack_24bit_ok_iff_witness :
    exceptOk (repack_24bit [0, 0, 0, 0, 0, 0, 0]) = false := by
  have h := repack_24bit_ok_iff [0, 0, 0, 0, 0, 0, 0]
  rw [show List.length [(0:ℤ), 0, 0, 0, 0, 0, 0] = 7 from rfl] at h
  have hfalse : ¬ ((7 : ℕ) % 3 = 0 ∨ (7 : ℕ) ≤ 5) := by norm_num
  cases hb : exceptOk (repack_24bit [0, 0, 0, 0, 0, 0, 0]) with
  | false => rfl
  | true => exact absurd (h.mp hb) hfalse

/-- C7: the Butterworth cascade Q list is
`Q_k = 1/(2 sin(π/N (k + 1/2)))` for `k = 0 .. floor(N/2) - 1`, with one
sentinel `-1` appended (realized as a first-order stage) exactly when `N` is
odd, so the number of stages is `ceil(N/2) = (N+1)/2`; for `N = 4` the
cascade is exactly 2 second-order stages and no first-order stage. -/
theorem butterworth_q_spec :
    (∀ N : ℕ, (Butterw_q N).length = (N + 1) / 2)
  ∧ (∀ N k : ℕ, k < N / 2 →
      (Butterw_q N).getD k 0 = 1 / (2 * Real.sin (Real.pi / N * ((k : ℝ) + 1 / 2))))
  ∧ (∀ N : ℕ, N % 2 = 1 → (Butterw_q N).getLast? = some (-1))
  ∧ (∀ (freq : ℝ) (N : ℕ), (comboStages freq (Butterw_q N)).length = (N + 1) / 2)
  ∧ (∀ freq : ℝ, (comboStages freq (Butterw_q 4)).length = 2
      ∧ ∀ s ∈ comboStages freq (Butterw_q 4), ∃ q : ℝ, s = StageConf.secondOrder freq q) := by
  have hlen : ∀ N : ℕ, (Butterw_q N).length = (N + 1) / 2 := by
    intro N
    unfold Butterw_q
    rw [List.length_append, List.length_map, List.length_range]
    by_cases h : N % 2 > 0
    · rw [if_pos h]
      simp only [List.length_cons, List.length_nil]
      omega
    · rw [if_neg h]
      simp only [List.length_nil]
      omega
  refine ⟨hlen, ?_, ?_, ?_, ?_⟩
  · intro N k hk
    unfold Butterw_q
    rw [List.getD_eq_getElem?_getD, List.getElem?_append_left (by simp [hk]),
      List.getElem?_map, List.getElem?_range hk]
    rfl
  · intro N hodd
    unfold Butterw_q
    rw [if_pos (by omega)]
    exact List.getLast?_concat _
  · intro freq N
    unfold comboStages
    rw [List.length_map, hlen]
  · intro freq
    have h4 : Butterw_q 4 = [1 / (2 * Real.sin (Real.pi / (4:ℕ) * (((0:ℕ) : ℝ) + 1 / 2))),
        1 / (2 * Real.sin (Real.pi / (4:ℕ) * (((1:ℕ) : ℝ) + 1 / 2)))] := by
      unfold Butterw_q
      norm_num [List.range_succ]
    constructor
    · rw [h4]
      rfl
    · intro s hs
      rw [h4] at hs
      unfold comboStages at hs
      have hq0 := butterw_entry_pos 4 0 (by norm_num) (by norm_num)
      have hq1 := butterw_entry_pos 4 1 (by norm_num) (by norm_num)
      simp only [List.map_cons, List.map_nil, List.mem_cons,
        List.not_mem_nil, or_false] at hs
      rcases hs with h | h <;> subst h <;> unfold stageConf
      · rw [if_pos hq0.le]
        exact ⟨_, rfl⟩
      · rw [if_pos hq1.le]
        exact ⟨_, rfl⟩

/-- C7 (witness): the analytic Q formula and odd-order sentinel evaluated at
the concrete order `N = 3`, stage `k = 0`. -/
theorem butterworth_q_spec_witness :
    (Butterw_q 3).getD 0 0 = 1 / (2 * Real.sin (Real.pi / (3:ℕ) * (((0:ℕ) : ℝ) + 1 / 2)))
  ∧ (Butterw_q 3).getLast? = some (-1) := by
  obtain ⟨-, h2, h3, -, -⟩ := butterworth_q_spec
  exact ⟨h2 3 0 (by norm_num), h3 3 (by norm_num)⟩

/-- C8: for every constructed biquad, `is_stable()` returns stable exactly
when `|a2| < 1` and `|a1| < 1 + a2`, and it is never the three-state
unknown. -/
theorem biquad_is_stable_iff (bq : Biquad) :
    (bq.is_stable = Stability.stable ↔ |bq.a2| < 1 ∧ |bq.a1| < 1 + bq.a2)
  ∧ bq.is_stable ≠ Stability.unknown := by
  have hcond : (|bq.a2| < 1 ∧ |bq.a1| < bq.a2 + 1) ↔ (|bq.a2| < 1 ∧ |bq.a1| < 1 + bq.a2) := by
    rw [add_comm]
  unfold Biquad.is_stable
  by_cases h : |bq.a2| < 1 ∧ |bq.a1| < bq.a2 + 1
  · rw [if_pos h]
    exact ⟨⟨fun _ => hcond.mp h, fun _ => rfl⟩, by simp⟩
  · rw [if_neg h]
    refine ⟨⟨fun hc => by simp at hc, fun hc => absurd (hcond.mpr hc) h⟩, by simp⟩

/-- C8 (witness): the stability test applied to the concrete biquad with
normalized coefficients `a1 = 0`, `a2 = 0` (stable, and not unknown). -/
theorem biquad_is_stable_iff_witness :
    (Biquad.normalize 44100 1 0 0 0 0 0).is_stable = Stability.stable
  ∧ (Biquad.normalize 44100 1 0 0 0 0 0).is_stable ≠ Stability.unknown := by
  obtain ⟨hiff, hunk⟩ := biquad_is_stable_iff (Biquad.normalize 44100 1 0 0 0 0 0)
  refine ⟨hiff.mpr ?_, hunk⟩
  constructor <;> simp [Biquad.normalize]

/-- C9: a difference-equation filter constructed with empty coefficient
vectors defaults both to `[1.0]`, and its response is unity: complex gain 1,
gain 0 dB and phase 0 degrees at every frequency. -/
theorem diffeq_default_identity (fs f : ℝ) :
    (DiffEq.init [] [] fs).a = [1]
  ∧ (DiffEq.init [] [] fs).b = [1]
  ∧ DiffEq.complex_gain (DiffEq.init [] [] fs) f = 1
  ∧ DiffEq.gain_and_phase (DiffEq.init [] [] fs) f = (0, 0) := by
  have hg : DiffEq.complex_gain (DiffEq.init [] [] fs) f = 1 := by
    simp [DiffEq.complex_gain, DiffEq.init]
  refine ⟨rfl, rfl, hg, ?_⟩
  simp [DiffEq.gain_and_phase, hg, Real.logb_one, Complex.arg_one]

/-- C9 (witness): the identity response at the concrete sample rate 44100
and frequency 1000. -/
theorem diffeq_default_identity_witness :
    DiffEq.complex_gain (DiffEq.init [] [] 44100) 1000 = 1
  ∧ DiffEq.gain_and_phase (DiffEq.init [] [] 44100) 1000 = (0, 0) := by
  obtain ⟨-, -, hg, hp⟩ := diffeq_default_identity 44100 1000
  exact ⟨hg, hp⟩

/-- C10: a convolution filter constructed with an absent (`None`) or empty
parameter mapping stores the single-sample identity impulse `[1.0]`. -/
theorem conv_default_impulse (readCoeffs : String → List ℝ) (fs : ℝ) :
    Conv.init none readCoeffs fs = ⟨[1], fs⟩
  ∧ Conv.init (some ⟨none, none⟩) readCoeffs fs = ⟨[1], fs⟩ :=
  ⟨rfl, rfl⟩

/-- C10 (witness): the default impulse for a concrete reader and sample
rate. -/
theorem conv_default_impulse_witness :
    Conv.init none (fun _ => []) 44100 = ⟨[1], 44100⟩
  ∧ Conv.init (some ⟨none, none⟩) (fun _ => []) 44100 = ⟨[1], 44100⟩ :=
  conv_default_impulse (fun _ => []) 44100

end PyCamillaDSP
